import Mathlib

/-!
Shallow embedding of the pricing / availability engine of the
`Price_Update` repository (`src/pricebook_generator.py` and the
column-validation layer of `src/update_v12.py`).

Python floats are modelled as exact rationals (`ℚ`), Python ints as `ℤ`,
Python strings as `String` with the relevant `str` methods re-implemented
structurally over `String.data` (`List Char`), and raising code as
`Except String`.  Each definition mirrors the source function of the same
name.
-/

/-! ## Python string primitives, re-implemented over `List Char` -/

/-- Python `str.strip()`: drop whitespace from both ends. -/
def pyStrip (l : List Char) : List Char :=
  ((l.dropWhile (·.isWhitespace)).reverse.dropWhile (·.isWhitespace)).reverse

/-- Python `str.lower()` on the character list. -/
def pyLowerList (l : List Char) : List Char :=
  l.map Char.toLower

/-- Python `str.upper()`. -/
def pyUpper (s : String) : String :=
  ⟨s.data.map Char.toUpper⟩

/-- Does `pat` occur at the start of the list? (helper for `in`). -/
def listStartsWith : List Char → List Char → Bool
  | _, [] => true
  | [], _ :: _ => false
  | a :: s, b :: t => a == b && listStartsWith s t

/-- Does `pat` occur anywhere in the list? (Python `pat in s`). -/
def listHasInfix (pat : List Char) : List Char → Bool
  | [] => listStartsWith [] pat
  | a :: s => listStartsWith (a :: s) pat || listHasInfix pat s

/-- Python substring test `pat in s`. -/
def containsSub (s pat : String) : Bool :=
  listHasInfix pat.data s.data

/-- Python string `<=` (lexicographic by code point). -/
def listLe : List Char → List Char → Bool
  | [], _ => true
  | _ :: _, [] => false
  | a :: s, b :: t => a < b || (a == b && listLe s t)

/-- Python `", ".join(parts)` (also used with other separators). -/
def joinSep (sep : String) : List String → String
  | [] => ""
  | [a] => a
  | a :: b :: t => a ++ sep ++ joinSep sep (b :: t)

/-! ## Pricing rules (`pricebook_generator.py`) -/

/-- Mirrors `ROUND_TO = 995`. -/
def ROUND_TO : ℤ := 995

/-- Mirrors `DEFAULT_INCREASE_PCT = 0.05`. -/
def DEFAULT_INCREASE_PCT : ℚ := 5 / 100

/-- Mirrors `TIER1_SOLD = 0.90`. -/
def TIER1_SOLD : ℚ := 90 / 100

/-- Mirrors `TIER1_UPLIFT = 0.15`. -/
def TIER1_UPLIFT : ℚ := 15 / 100

/-- Mirrors `TIER2_SOLD = 0.97`. -/
def TIER2_SOLD : ℚ := 97 / 100

/-- Mirrors `TIER2_UPLIFT = 0.20`. -/
def TIER2_UPLIFT : ℚ := 20 / 100

/-- Mirrors `COMPANION_DISCOUNT = 0.20`. -/
def COMPANION_DISCOUNT : ℚ := 20 / 100

/-- Mirrors `round_up_to(x, base)`: `0` on non-positive input, otherwise
`math.ceil(x / base) * base`. -/
def round_up_to (x : ℚ) (base : ℤ) : ℤ :=
  if x ≤ 0 then 0 else ⌈x / (base : ℚ)⌉ * base

/-- Mirrors `round_up_end995(x) = int(math.ceil((x + 5) / 1000.0) * 1000 - 5)`. -/
def round_up_end995 (x : ℚ) : ℤ :=
  ⌈(x + 5) / 1000⌉ * 1000 - 5

/-- Mirrors `scarcity_uplift(sold_pct)`: tiered uplift, checked top-down. -/
def scarcity_uplift (sold_pct : ℚ) : ℚ :=
  if TIER2_SOLD ≤ sold_pct then TIER2_UPLIFT
  else if TIER1_SOLD ≤ sold_pct then TIER1_UPLIFT
  else 0

/-- Mirrors `final_price_from_base(base_price_locked, sold_pct)`. -/
def final_price_from_base (base_price_locked : ℤ) (sold_pct : ℚ) : ℤ :=
  let u := scarcity_uplift sold_pct
  if u ≤ 0 then base_price_locked
  else round_up_to ((base_price_locked : ℚ) * (1 + u)) ROUND_TO

/-- Modelled from the spec: the parenthetical gloss of §4.2 / claim C3,
"round up to the next multiple of 1000, then subtract 5", read literally as
the smallest multiple of 1000 that is `≥ x`, minus 5.  The source instead
shifts by 5 before rounding (`round_up_end995`). -/
def round_up_end995_specGloss (x : ℚ) : ℤ :=
  ⌈x / 1000⌉ * 1000 - 5

/-- `v` is the smallest integer multiple of `m` that is `≥ x` (the
characterisation the spec uses for the scarcity rounding pass). -/
def isLeastMultipleGE (m : ℤ) (x : ℚ) (v : ℤ) : Prop :=
  m ∣ v ∧ x ≤ (v : ℚ) ∧ ∀ w : ℤ, m ∣ w → x ≤ (w : ℚ) → v ≤ w

/-! ## Adjacent-pair counting (`count_adjacent_pairs`) -/

/-- One iteration of the loop body of `count_adjacent_pairs`: `all` is the
deduplicated sorted list being scanned, the accumulator carries the `used`
set (as a list) and the pair counter. -/
def capStep (all : List ℤ) (acc : List ℤ × ℕ) (n : ℤ) : List ℤ × ℕ :=
  if n ∈ acc.1 then acc
  else if (n + 1) ∈ all ∧ (n + 1) ∉ acc.1 then (n :: (n + 1) :: acc.1, acc.2 + 1)
  else acc

/-- The full scan of `count_adjacent_pairs`: `sorted(set(nums))` followed by
the greedy left-to-right pairing loop; returns the final `(used, pairs)`. -/
def cap_run (nums : List ℤ) : List ℤ × ℕ :=
  let s := List.insertionSort (· ≤ ·) nums.dedup
  s.foldl (capStep s) ([], 0)

/-- Mirrors `count_adjacent_pairs(nums)`. -/
def count_adjacent_pairs (nums : List ℤ) : ℕ :=
  (cap_run nums).2

/-- Reference recursion for the greedy pairing on a sorted duplicate-free
list: pair the two leading elements when consecutive, else drop the head. -/
def gPairs : List ℤ → ℕ
  | [] => 0
  | [_] => 0
  | a :: b :: t => if b = a + 1 then 1 + gPairs t else gPairs (b :: t)

/-! ## Availability aggregation (`mv_buckets`) -/

/-- Mirrors `is_available(status)`: `str(status).strip().lower() == "available"`. -/
def is_available (status : String) : Bool :=
  pyLowerList (pyStrip status.data) == "available".data

/-- The per-bucket statistics stored by `mv_buckets`
(`{"avail":..., "total":..., "sold_pct":...}`). -/
structure BucketStats where
  avail : ℕ
  total : ℕ
  sold_pct : ℚ
deriving DecidableEq

/-- One crypt unit inside a Mountain View single-crypt group: its crypt
number and raw status string. -/
structure MVUnit where
  crypt : ℤ
  status : String
deriving DecidableEq

/-- The Single bucket computed for one `(band, elev, theme)` group in
`mv_buckets`: `total = len(g)`, `avail = sum(is_available)`,
`sold_pct = 1 - avail/total if total else 0.0`. -/
def agg_units (g : List MVUnit) : BucketStats :=
  let total := g.length
  let avail := (g.filter (fun u => is_available u.status)).length
  { avail := avail, total := total,
    sold_pct := if total ≠ 0 then 1 - (avail : ℚ) / (total : ℚ) else 0 }

/-- The Companion bucket computed for the same group: adjacent pairs over
all crypt numbers and over the available ones,
`sold_pct_pairs = 1 - avail_pairs/total_pairs if total_pairs else 0.0`. -/
def agg_pairs (g : List MVUnit) : BucketStats :=
  let all_nums := g.map (·.crypt)
  let av_nums := (g.filter (fun u => is_available u.status)).map (·.crypt)
  let total_pairs := count_adjacent_pairs all_nums
  let avail_pairs := count_adjacent_pairs av_nums
  { avail := avail_pairs, total := total_pairs,
    sold_pct := if total_pairs ≠ 0 then 1 - (avail_pairs : ℚ) / (total_pairs : ℚ) else 0 }

/-- One regex-parsed Mountain View inventory row
`(band, elev, theme, crypt, product, status)`. -/
structure MVRow where
  band : String
  elev : ℤ
  theme : String
  crypt : ℤ
  product : String
  status : String
deriving DecidableEq

/-- Bucket key `(level_band, elevation, row_theme, option)`. -/
abbrev MVKey := String × ℤ × String × String

/-- Mirrors `mv_buckets` on the already-parsed rows: empty input yields the
empty dict, otherwise the Single rows are grouped by `(band, elev, theme)`
and each group contributes a Single bucket and a Companion bucket. -/
def mv_buckets (rows : List MVRow) : List (MVKey × BucketStats) :=
  if rows = [] then []
  else
    let singles := rows.filter (fun r => r.product == "Single")
    let keys := (singles.map (fun r => (r.band, r.elev, r.theme))).dedup
    keys.flatMap (fun k =>
      let g := (singles.filter
        (fun r => ((r.band, r.elev, r.theme) : String × ℤ × String) == k)).map
        (fun r => MVUnit.mk r.crypt r.status)
      [((k.1, k.2.1, k.2.2, "Single"), agg_units g),
       ((k.1, k.2.1, k.2.2, "Companion"), agg_pairs g)])

/-! ## Price-library bootstrap (`bootstrap_price_library`) -/

/-- One record of the parsed master listing, restricted to the fields the
companion-crypt fill reads and writes. -/
structure PriceRec where
  product_family : String
  group : Option String
  theme : Option String
  option : String
  baseline_2025_crypt : Option ℤ
deriving DecidableEq

/-- The `(product_family, group, theme)` key used by the single-price maps. -/
def PriceRec.key (r : PriceRec) : String × Option String × Option String :=
  (r.product_family, r.group, r.theme)

/-- Mirrors the `single_map` dict comprehension: the crypt baseline of the
last Single record with that key carrying a price (later entries of a
Python dict comprehension overwrite earlier ones). -/
def single_map (rows : List PriceRec) (k : String × Option String × Option String) :
    Option ℤ :=
  ((rows.filter (fun r => r.option == "Single" && r.baseline_2025_crypt.isSome)).reverse.find?
    (fun r => r.key == k)).bind (·.baseline_2025_crypt)

/-- The companion fill formula
`round_up_end995(2 * single_crypt * (1 - COMPANION_DISCOUNT))`. -/
def derive_companion_crypt (single_crypt : ℤ) : ℤ :=
  round_up_end995 (2 * (single_crypt : ℚ) * (1 - COMPANION_DISCOUNT))

/-- The body of the bootstrap fill loop for one record: only Companion
records with a missing crypt baseline and a matching single price are
changed. -/
def fill_companion_crypt (m : String × Option String × Option String → Option ℤ)
    (r : PriceRec) : PriceRec :=
  if r.option == "Companion" then
    match r.baseline_2025_crypt, m r.key with
    | none, some s => { r with baseline_2025_crypt := some (derive_companion_crypt s) }
    | _, _ => r
  else r

/-- The companion-crypt fill pass of `bootstrap_price_library` over the
whole record list. -/
def bootstrap_fill_companion (rows : List PriceRec) : List PriceRec :=
  rows.map (fill_companion_crypt (single_map rows))

/-! ## Publish row assembly (`build_mausoleum_sheet`) -/

/-- The Availability cell: a count or the literal "Sold Out". -/
inductive Availability where
  | count : ℤ → Availability
  | soldOut : Availability
deriving DecidableEq

/-- The default bucket used by `mv.get(key, {"avail":0,"total":0,"sold_pct":0.0})`. -/
def default_bucket : BucketStats :=
  { avail := 0, total := 0, sold_pct := 0 }

/-- Dict lookup with the zero default, as in the publish loops. -/
def bucket_get (m : List (MVKey × BucketStats)) (k : MVKey) : BucketStats :=
  match m.find? (fun p => p.1 == k) with
  | some p => p.2
  | none => default_bucket

/-- The price/availability cells of one published data row. -/
structure PubRow where
  crypt : Option ℤ
  front : Option ℤ
  total : Option ℤ
  availability : Availability
deriving DecidableEq

/-- Mirrors the per-row computation of `build_mausoleum_sheet`: look the
bucket up (zero default), derive the Availability cell, apply
`final_price_from_base` to the locked crypt/front bases when present, and
total them when both exist. -/
def publish_row (m : List (MVKey × BucketStats)) (k : MVKey)
    (base_crypt base_front : Option ℤ) : PubRow :=
  let bucket := bucket_get m k
  let sold_pct := bucket.sold_pct
  let avail : ℤ := bucket.avail
  let availability := if 0 < avail then Availability.count avail else Availability.soldOut
  let crypt := base_crypt.map (fun b => final_price_from_base b sold_pct)
  let front := base_front.map (fun b => final_price_from_base b sold_pct)
  let total := match crypt, front with
    | some c, some f => some (c + f)
    | _, _ => none
  { crypt := crypt, front := front, total := total, availability := availability }

/-! ## Loaders and column validation (`load_facts`, `update_v12.py`) -/

/-- The required FaCTS columns of `load_facts`, listed in the sorted order
produced by `sorted(missing)`. -/
def required_columns : List String :=
  ["Location", "Sales Item", "Section", "Space", "Status"]

/-- The column check of `load_facts`, applied to the normalised header
names of the export: missing required columns raise a `ValueError` naming
them, modelled as `Except.error`. -/
def load_facts_check (cols : List String) : Except String (List String) :=
  let missing := List.insertionSort (fun a b => listLe a.data b.data)
    (required_columns.filter (fun c => !cols.contains c))
  if missing.isEmpty then Except.ok cols
  else Except.error
    ("FaCTS export is missing required columns: " ++ joinSep ", " missing)

/-- `publish()` calls `load_facts()` before building any output workbook;
an abstract continuation stands for the rest of the pipeline, so on a
column error no output value exists. -/
def publish_model {α : Type} (cols : List String) (build : List String → α) :
    Except String α :=
  (load_facts_check cols).map build

/-- The `{'Garden': ..., 'Row': ..., 'Status': ...}` mapping of
`update_v12.identify_columns`. -/
structure ColMap where
  garden : Option String
  row : Option String
  status : Option String
deriving DecidableEq

/-- Mirrors `update_v12.identify_columns`: keyword scan over the upper-cased
header names. -/
def identify_columns (cols : List String) : ColMap :=
  let garden := cols.find? (fun c =>
    containsSub (pyUpper c) "GARDEN" || containsSub (pyUpper c) "GROUP" ||
      containsSub (pyUpper c) "LOCATION")
  let candidates := cols.filter (fun c =>
    ["SECTION", "ROW", "BLOCK", "LOT", "TIER"].any
      (fun x => containsSub (pyUpper c) x))
  let row := match candidates.find? (fun c => containsSub (pyUpper c) "SECTION") with
    | some best => some best
    | none => candidates.head?
  let status := cols.find? (fun c =>
    containsSub (pyUpper c) "STATUS" || containsSub (pyUpper c) "STATE")
  { garden := garden, row := row, status := status }

/-- The mapping keys whose value is `None`, in dict order Garden, Row,
Status. -/
def ColMap.missingKeys (m : ColMap) : List String :=
  (if m.garden = none then ["Garden"] else []) ++
    (if m.row = none then ["Row"] else []) ++
      (if m.status = none then ["Status"] else [])

/-- Mirrors `update_v12.validate_column_mapping`: raise a `ValueError`
naming the unmapped keys. -/
def validate_column_mapping (m : ColMap) : Except String Unit :=
  if m.missingKeys.isEmpty then Except.ok ()
  else Except.error
    ("Missing required inventory columns: " ++ joinSep ", " m.missingKeys ++
      ". Please verify the inventory headers.")

/-- The load-and-validate prefix of `update_v12.main`: the mapping is
validated inside the `try` block, before any output workbook is opened. -/
def update_main_check (inv_cols : List String) : Except String ColMap :=
  match validate_column_mapping (identify_columns inv_cols) with
  | Except.error e => Except.error e
  | Except.ok _ => Except.ok (identify_columns inv_cols)

/-- `c` is named inside the message `msg` (its text occurs contiguously). -/
def namesColumn (msg c : String) : Prop :=
  c.data <:+: msg.data

/-! ## Evaluation and characterisation lemmas for the rounding rules -/

theorem round_up_to_least (x : ℚ) (m : ℤ) (hm : 0 < m) (hx : 0 < x) :
    isLeastMultipleGE m x (round_up_to x m) := by
  have hmQ : (0 : ℚ) < (m : ℚ) := by exact_mod_cast hm
  rw [round_up_to, if_neg (not_le.mpr hx)]
  refine ⟨Dvd.intro_left _ rfl, ?_, ?_⟩
  · push_cast
    rw [← div_le_iff₀ hmQ]
    exact Int.le_ceil _
  · rintro w ⟨k, rfl⟩ hw
    have hk : x / (m : ℚ) ≤ (k : ℚ) := by
      rw [div_le_iff₀ hmQ]
      push_cast at hw ⊢
      linarith
    have hck : ⌈x / (m : ℚ)⌉ ≤ k := Int.ceil_le.mpr hk
    calc ⌈x / (m : ℚ)⌉ * m ≤ k * m := mul_le_mul_of_nonneg_right hck (le_of_lt hm)
      _ = m * k := mul_comm _ _

theorem round_up_to_eq (x : ℚ) (m c : ℤ) (hx : 0 < x)
    (h1 : (c : ℚ) - 1 < x / (m : ℚ)) (h2 : x / (m : ℚ) ≤ (c : ℚ)) :
    round_up_to x m = c * m := by
  rw [round_up_to, if_neg (not_le.mpr hx)]
  have : ⌈x / (m : ℚ)⌉ = c := Int.ceil_eq_iff.mpr ⟨h1, h2⟩
  rw [this]

theorem round_up_end995_eq (x : ℚ) (c : ℤ)
    (h1 : (c : ℚ) - 1 < (x + 5) / 1000) (h2 : (x + 5) / 1000 ≤ (c : ℚ)) :
    round_up_end995 x = c * 1000 - 5 := by
  rw [round_up_end995]
  have : ⌈(x + 5) / 1000⌉ = c := Int.ceil_eq_iff.mpr ⟨h1, h2⟩
  rw [this]

theorem scarcity_uplift_tier2 (f : ℚ) (h : 97/100 ≤ f) :
    scarcity_uplift f = 20/100 := by
  rw [scarcity_uplift, TIER2_SOLD, TIER2_UPLIFT, if_pos h]

theorem scarcity_uplift_tier1 (f : ℚ) (h1 : 90/100 ≤ f) (h2 : f < 97/100) :
    scarcity_uplift f = 15/100 := by
  rw [scarcity_uplift, TIER2_SOLD, TIER1_SOLD, TIER1_UPLIFT,
    if_neg (not_le.mpr h2), if_pos h1]

theorem scarcity_uplift_zero (f : ℚ) (h : f < 90/100) :
    scarcity_uplift f = 0 := by
  have h2 : f < 97/100 := lt_trans h (by norm_num)
  rw [scarcity_uplift, TIER2_SOLD, TIER1_SOLD,
    if_neg (not_le.mpr h2), if_neg (not_le.mpr h)]

theorem final_price_nouplift (b : ℤ) (f : ℚ) (h : f < 90/100) :
    final_price_from_base b f = b := by
  rw [final_price_from_base, scarcity_uplift_zero f h]
  norm_num

/-- Claim C1: for a positive locked base price, a sold fraction in
[0.90, 0.97) prices at the smallest multiple of 995 that is at least
base × 1.15, a sold fraction ≥ 0.97 prices at the smallest multiple of 995
that is at least base × 1.20, and in particular
`final_price_from_base 10000 0.95 = 11940`. -/
theorem C1_final_price_tiers (base : ℤ) (f : ℚ) (hb : 0 < base) :
    ((90/100 ≤ f ∧ f < 97/100) →
      isLeastMultipleGE 995 ((base : ℚ) * (115/100)) (final_price_from_base base f)) ∧
    (97/100 ≤ f →
      isLeastMultipleGE 995 ((base : ℚ) * (120/100)) (final_price_from_base base f)) ∧
    final_price_from_base 10000 (95/100) = 11940 := by
  have hbQ : (0 : ℚ) < (base : ℚ) := by exact_mod_cast hb
  refine ⟨?_, ?_, ?_⟩
  · rintro ⟨h1, h2⟩
    simp only [final_price_from_base, scarcity_uplift_tier1 f h1 h2, ROUND_TO]
    rw [if_neg (by norm_num : ¬((15 : ℚ)/100 ≤ 0)),
      show (1 + 15/100 : ℚ) = 115/100 by norm_num]
    exact round_up_to_least _ 995 (by norm_num) (by positivity)
  · intro h
    simp only [final_price_from_base, scarcity_uplift_tier2 f h, ROUND_TO]
    rw [if_neg (by norm_num : ¬((20 : ℚ)/100 ≤ 0)),
      show (1 + 20/100 : ℚ) = 120/100 by norm_num]
    exact round_up_to_least _ 995 (by norm_num) (by positivity)
  · simp only [final_price_from_base,
      scarcity_uplift_tier1 (95/100) (by norm_num) (by norm_num), ROUND_TO]
    rw [if_neg (by norm_num : ¬((15 : ℚ)/100 ≤ 0)),
      show ((10000 : ℤ) : ℚ) * (1 + 15/100) = 11500 by norm_num,
      round_up_to_eq 11500 995 12 (by norm_num) (by norm_num) (by norm_num)]
    norm_num

theorem C1_final_price_tiers_witness :
    isLeastMultipleGE 995 ((10000 : ℚ) * (115/100)) (final_price_from_base 10000 (95/100)) :=
  (C1_final_price_tiers 10000 (95/100) (by decide)).1 ⟨by norm_num, by norm_num⟩

/-- Claim C2: for a positive locked base price and any sold fraction below
0.90 the final price is the base price unchanged. -/
theorem C2_below_tier1_returns_base (base : ℤ) (f : ℚ) (hb : 0 < base)
    (hf : f < 90/100) : final_price_from_base base f = base :=
  final_price_nouplift base f hf

theorem C2_below_tier1_returns_base_witness :
    final_price_from_base 7 (1/2) = 7 :=
  C2_below_tier1_returns_base 7 (1/2) (by decide) (by norm_num)

/-- Claim C3 counterexample: at input 1000 the source rule gives 1995 while
the claim's literal gloss "round up to the next multiple of 1000, then
subtract 5" gives 995, which is below the input and differs from the code. -/
theorem C3_gloss_counterexample :
    round_up_end995 1000 = 1995 ∧ round_up_end995_specGloss 1000 = 995 ∧
    round_up_end995_specGloss 1000 < 1000 ∧
    round_up_end995_specGloss 1000 ≠ round_up_end995 1000 := by
  have h1 : round_up_end995 1000 = 1995 := by
    rw [round_up_end995_eq 1000 2 (by norm_num) (by norm_num)]
    norm_num
  have h2 : round_up_end995_specGloss 1000 = 995 := by
    rw [round_up_end995_specGloss, show ((1000 : ℚ)/1000) = 1 by norm_num, Int.ceil_one]
    norm_num
  refine ⟨h1, h2, ?_, ?_⟩
  · rw [h2]; norm_num
  · rw [h1, h2]; norm_num

/-- Claim C3 (amended): `round_up_end995 x` is the unique integer `v` with
`v % 1000 = 995` and `x ≤ v < x + 1000` — equivalently, shift the input up
by 5, round to the next multiple of 1000 and subtract 5 — and this rule is
distinct from rounding up to the nearest multiple of 995
(`round_up_end995 1600 = 1995` but `round_up_to 1600 995 = 1990`). -/
theorem C3_end995_characterisation (x : ℚ) :
    round_up_end995 x % 1000 = 995 ∧
    x ≤ (round_up_end995 x : ℚ) ∧
    (round_up_end995 x : ℚ) - 1000 < x ∧
    (∀ w : ℤ, w % 1000 = 995 → x ≤ (w : ℚ) → (w : ℚ) < x + 1000 →
      w = round_up_end995 x) ∧
    round_up_end995 1600 = 1995 ∧ round_up_to 1600 995 = 1990 := by
  have hc := Int.le_ceil ((x + 5) / 1000)
  have hc' := Int.ceil_lt_add_one ((x + 5) / 1000)
  set c := ⌈(x + 5) / 1000⌉ with hcdef
  have hle : x + 5 ≤ (c : ℚ) * 1000 := by
    rw [div_le_iff₀ (by norm_num : (0:ℚ) < 1000)] at hc
    linarith
  have hlt : (c : ℚ) * 1000 < x + 5 + 1000 := by
    have hstep : (c : ℚ) - 1 < (x + 5) / 1000 := by linarith
    rw [lt_div_iff₀ (by norm_num : (0:ℚ) < 1000)] at hstep
    linarith
  have hvQ : (round_up_end995 x : ℚ) = (c : ℚ) * 1000 - 5 := by
    rw [round_up_end995, ← hcdef]
    push_cast
    ring
  have hxle : x ≤ (round_up_end995 x : ℚ) := by rw [hvQ]; linarith
  have hxlt : (round_up_end995 x : ℚ) - 1000 < x := by rw [hvQ]; linarith
  have hmod : round_up_end995 x % 1000 = 995 := by
    rw [round_up_end995, ← hcdef]
    omega
  refine ⟨hmod, hxle, hxlt, ?_, ?_, ?_⟩
  · intro w hw hwx hwlt
    have h1 : (w : ℚ) < (round_up_end995 x : ℚ) + 1000 := lt_of_lt_of_le hwlt (by linarith)
    have h2 : (round_up_end995 x : ℚ) - 1000 < (w : ℚ) := lt_of_lt_of_le hxlt hwx
    have h1' : w < round_up_end995 x + 1000 := by exact_mod_cast (by push_cast; linarith : (w:ℚ) < ((round_up_end995 x + 1000 : ℤ) : ℚ))
    have h2' : round_up_end995 x - 1000 < w := by exact_mod_cast (by push_cast; linarith : ((round_up_end995 x - 1000 : ℤ) : ℚ) < (w:ℚ))
    omega
  · rw [round_up_end995_eq 1600 2 (by norm_num) (by norm_num)]
    norm_num
  · rw [round_up_to_eq 1600 995 2 (by norm_num) (by norm_num) (by norm_num)]
    norm_num

theorem C3_end995_characterisation_witness :
    (1995 : ℤ) = round_up_end995 1600 :=
  (C3_end995_characterisation 1600).2.2.2.1 1995 (by decide) (by norm_num) (by norm_num)

/-- Claim C7 counterexample: `final_price_from_base (-100) 0.5` returns the
base `-100` unchanged, not the claimed 0. -/
theorem C7_counterexample :
    final_price_from_base (-100) (1/2) = -100 ∧ ((-100 : ℤ) ≠ 0) :=
  ⟨final_price_nouplift (-100) (1/2) (by norm_num), by decide⟩

/-- Claim C7 (amended): for `base ≤ 0` the result is 0 only on the uplift
branches (sold fraction ≥ 0.90), via the non-positive guard of
`round_up_to`; with uplift 0 (sold fraction < 0.90) the base is returned
unchanged, so the result is 0 only when the base itself is 0. -/
theorem C7_nonpositive_base (base : ℤ) (f : ℚ) (hb : base ≤ 0) :
    (90/100 ≤ f → final_price_from_base base f = 0) ∧
    (f < 90/100 → final_price_from_base base f = base) := by
  constructor
  · intro hf
    have hu : 0 < scarcity_uplift f := by
      rcases le_or_lt (97/100 : ℚ) f with h2 | h2
      · rw [scarcity_uplift_tier2 f h2]; norm_num
      · rw [scarcity_uplift_tier1 f hf h2]; norm_num
    have hbQ : (base : ℚ) ≤ 0 := by exact_mod_cast hb
    have hx : (base : ℚ) * (1 + scarcity_uplift f) ≤ 0 :=
      mul_nonpos_iff.mpr (Or.inr ⟨hbQ, by linarith⟩)
    simp only [final_price_from_base]
    rw [if_neg (not_le.mpr hu), round_up_to, if_pos hx]
  · exact final_price_nouplift base f

theorem C7_nonpositive_base_witness :
    final_price_from_base (-100) 1 = 0 ∧ final_price_from_base 0 (1/2) = 0 :=
  ⟨(C7_nonpositive_base (-100) 1 (by decide)).1 (by norm_num),
   (C7_nonpositive_base 0 (1/2) (by decide)).2 (by norm_num)⟩

/-! ## Bucket projection lemmas -/

theorem agg_pairs_total (g : List MVUnit) :
    (agg_pairs g).total = count_adjacent_pairs (g.map (fun u => u.crypt)) := rfl

theorem agg_pairs_avail (g : List MVUnit) :
    (agg_pairs g).avail =
      count_adjacent_pairs ((g.filter (fun u => is_available u.status)).map
        (fun u => u.crypt)) := rfl

theorem agg_pairs_sold_pct (g : List MVUnit) :
    (agg_pairs g).sold_pct =
      if (agg_pairs g).total ≠ 0 then
        1 - ((agg_pairs g).avail : ℚ) / ((agg_pairs g).total : ℚ)
      else 0 := rfl

/-- Claim C4: in the bootstrap fill, a Companion record without a crypt
baseline whose key has a Single crypt price `s` is filled with
`round_up_end995 (2 * s * (1 - 0.20))`; a present companion price is kept;
and the fill of a 1000 single is 1995. -/
theorem C4_companion_fill (rows : List PriceRec) (r : PriceRec) (s : ℤ)
    (hmem : r ∈ rows) (hopt : r.option = "Companion") :
    fill_companion_crypt (single_map rows) r ∈ bootstrap_fill_companion rows ∧
    (r.baseline_2025_crypt = none → single_map rows r.key = some s →
      (fill_companion_crypt (single_map rows) r).baseline_2025_crypt =
        some (round_up_end995 (2 * (s : ℚ) * (1 - COMPANION_DISCOUNT)))) ∧
    (∀ p : ℤ, r.baseline_2025_crypt = some p →
      (fill_companion_crypt (single_map rows) r).baseline_2025_crypt = some p) ∧
    derive_companion_crypt 1000 = 1995 := by
  refine ⟨List.mem_map_of_mem _ hmem, ?_, ?_, ?_⟩
  · intro hnone hsm
    simp only [fill_companion_crypt, hopt, beq_self_eq_true, if_true, hnone, hsm,
      derive_companion_crypt]
  · intro p hp
    simp only [fill_companion_crypt, hopt, beq_self_eq_true, if_true, hp]
  · rw [derive_companion_crypt,
      show (2 * ((1000 : ℤ) : ℚ) * (1 - COMPANION_DISCOUNT)) = 1600 by
        rw [COMPANION_DISCOUNT]; norm_num,
      round_up_end995_eq 1600 2 (by norm_num) (by norm_num)]
    norm_num

theorem C4_companion_fill_witness :
    (fill_companion_crypt
      (single_map
        [⟨"Bell Tower Mausoleum", some "COVERED", some "A (Prayer)", "Single", some 1000⟩,
         ⟨"Bell Tower Mausoleum", some "COVERED", some "A (Prayer)", "Companion", none⟩])
      ⟨"Bell Tower Mausoleum", some "COVERED", some "A (Prayer)", "Companion", none⟩).baseline_2025_crypt =
      some (round_up_end995 (2 * ((1000 : ℤ) : ℚ) * (1 - COMPANION_DISCOUNT))) :=
  (C4_companion_fill
    [⟨"Bell Tower Mausoleum", some "COVERED", some "A (Prayer)", "Single", some 1000⟩,
     ⟨"Bell Tower Mausoleum", some "COVERED", some "A (Prayer)", "Companion", none⟩]
    ⟨"Bell Tower Mausoleum", some "COVERED", some "A (Prayer)", "Companion", none⟩
    1000 (by decide) (by decide)).2.1 (by decide) (by decide)

/-- Claim C6 counterexample: a Companion bucket whose pair population is
empty (total 0) receives the concrete sold fraction 0.0 — the same value a
genuinely fully-available bucket receives — not an undefined marker, so a
caller cannot tell "no data" apart from a zero sold fraction. -/
theorem C6_counterexample :
    (agg_pairs [⟨1, "Sold"⟩, ⟨3, "Sold"⟩]).total = 0 ∧
    (agg_pairs [⟨1, "Sold"⟩, ⟨3, "Sold"⟩]).sold_pct = 0 ∧
    (agg_pairs [⟨1, "Available"⟩, ⟨2, "Available"⟩]).total = 1 ∧
    (agg_pairs [⟨1, "Available"⟩, ⟨2, "Available"⟩]).sold_pct = 0 := by
  refine ⟨by decide, by decide, by decide, ?_⟩
  rw [agg_pairs_sold_pct,
    show (agg_pairs [⟨1, "Available"⟩, ⟨2, "Available"⟩]).total = 1 from by decide,
    show (agg_pairs [⟨1, "Available"⟩, ⟨2, "Available"⟩]).avail = 1 from by decide]
  norm_num

/-- Claim C6 (amended): an empty unit list produces no buckets at all
(`mv_buckets [] = []`); but whenever a bucket is produced from a population
with zero total pairs, its sold fraction is the defined value 0.0, not an
undefined marker and not an exception, indistinguishable from a genuine
zero sold fraction. -/
theorem C6_zero_total_sold_pct :
    mv_buckets [] = [] ∧
    ∀ g : List MVUnit, (agg_pairs g).total = 0 → (agg_pairs g).sold_pct = 0 := by
  refine ⟨rfl, ?_⟩
  intro g h
  rw [agg_pairs_sold_pct, h]
  simp

theorem C6_zero_total_sold_pct_witness :
    (agg_pairs [⟨1, "Sold"⟩, ⟨3, "Sold"⟩]).sold_pct = 0 :=
  C6_zero_total_sold_pct.2 [⟨1, "Sold"⟩, ⟨3, "Sold"⟩] (by decide)

/-- Claim C8: a key present in the price library but absent from the bucket
map is published with the zero default bucket: availability "Sold Out" and
crypt/front prices equal to the locked bases (sold fraction 0 applies no
uplift). -/
theorem C8_missing_bucket (m : List (MVKey × BucketStats)) (k : MVKey)
    (bc bf : Option ℤ) (h : m.find? (fun p => p.1 == k) = none) :
    (publish_row m k bc bf).availability = Availability.soldOut ∧
    (publish_row m k bc bf).crypt = bc ∧
    (publish_row m k bc bf).front = bf := by
  have hb : bucket_get m k = default_bucket := by rw [bucket_get, h]
  have hfp : ∀ b : ℤ, final_price_from_base b (0 : ℚ) = b := fun b =>
    final_price_nouplift b 0 (by norm_num)
  refine ⟨?_, ?_, ?_⟩
  · simp [publish_row, hb, default_bucket]
  · cases bc <;> simp [publish_row, hb, default_bucket, hfp]
  · cases bf <;> simp [publish_row, hb, default_bucket, hfp]

theorem C8_missing_bucket_witness :
    (publish_row [] ("Upper Level", 3, "D – Touch", "Single") (some 11995) none).availability =
      Availability.soldOut ∧
    (publish_row [] ("Upper Level", 3, "D – Touch", "Single") (some 11995) none).crypt =
      some 11995 ∧
    (publish_row [] ("Upper Level", 3, "D – Touch", "Single") (some 11995) none).front =
      none :=
  C8_missing_bucket [] ("Upper Level", 3, "D – Touch", "Single") (some 11995) none rfl

/-! ## Naming lemmas for error messages -/

theorem infix_append_left {α : Type} {x m : List α} (pre : List α) (h : x <:+: m) :
    x <:+: pre ++ m :=
  h.trans (List.suffix_append pre m).isInfix

theorem infix_append_right {α : Type} {x m : List α} (suf : List α) (h : x <:+: m) :
    x <:+: m ++ suf :=
  h.trans (List.prefix_append m suf).isInfix

theorem joinSep_names (sep : String) :
    ∀ (l : List String) (c : String), c ∈ l → c.data <:+: (joinSep sep l).data
  | [], c, h => absurd h (List.not_mem_nil c)
  | [a], c, h => by
      rw [List.mem_singleton] at h
      subst h
      exact List.infix_rfl
  | a :: b :: t, c, h => by
      rcases List.mem_cons.mp h with rfl | h'
      · rw [show joinSep sep (c :: b :: t) = c ++ sep ++ joinSep sep (b :: t) from rfl,
          String.data_append, String.data_append, List.append_assoc]
        exact (List.prefix_append c.data _).isInfix
      · have ih := joinSep_names sep (b :: t) c h'
        rw [show joinSep sep (a :: b :: t) = a ++ sep ++ joinSep sep (b :: t) from rfl,
          String.data_append, String.data_append, List.append_assoc]
        exact infix_append_left a.data (infix_append_left sep.data ih)

theorem isEmpty_false_of_ne_nil {α : Type} {l : List α} (h : l ≠ []) :
    l.isEmpty = false := by
  cases l with
  | nil => exact absurd rfl h
  | cons a t => rfl

/-- Claim C9: a missing required column makes the FaCTS loader and the
inventory updater fail with an error naming the missing column, and the
publish pipeline then produces no output value at all. -/
theorem C9_missing_columns_fail_fast :
    (∀ (cols : List String) (c : String), c ∈ required_columns →
      cols.contains c = false →
      ∃ e, load_facts_check cols = Except.error e ∧ namesColumn e c) ∧
    (∀ (α : Type) (build : List String → α) (cols : List String) (c : String),
      c ∈ required_columns → cols.contains c = false →
      ∃ e, publish_model cols build = Except.error e) ∧
    (∀ (cols : List String) (key : String),
      key ∈ (identify_columns cols).missingKeys →
      ∃ e, update_main_check cols = Except.error e ∧ namesColumn e key) := by
  have h1 : ∀ (cols : List String) (c : String), c ∈ required_columns →
      cols.contains c = false →
      ∃ e, load_facts_check cols = Except.error e ∧ namesColumn e c := by
    intro cols c hc hnc
    have hmem : c ∈ required_columns.filter (fun x => !cols.contains x) :=
      List.mem_filter.mpr ⟨hc, by rw [hnc]; rfl⟩
    have hmem' : c ∈ List.insertionSort (fun a b => listLe a.data b.data)
        (required_columns.filter (fun x => !cols.contains x)) :=
      (List.perm_insertionSort _ _).mem_iff.mpr hmem
    have hne := List.ne_nil_of_mem hmem'
    refine ⟨"FaCTS export is missing required columns: " ++
      joinSep ", " (List.insertionSort (fun a b => listLe a.data b.data)
        (required_columns.filter (fun x => !cols.contains x))), ?_, ?_⟩
    · simp only [load_facts_check, isEmpty_false_of_ne_nil hne, Bool.false_eq_true,
        if_false]
    · show c.data <:+: _
      rw [String.data_append]
      exact infix_append_left _ (joinSep_names ", " _ c hmem')
  refine ⟨h1, ?_, ?_⟩
  · intro α build cols c hc hnc
    obtain ⟨e, he, -⟩ := h1 cols c hc hnc
    refine ⟨e, ?_⟩
    rw [publish_model, he]
    rfl
  · intro cols key hk
    have hne := List.ne_nil_of_mem hk
    have heval : validate_column_mapping (identify_columns cols) =
        Except.error ("Missing required inventory columns: " ++
          joinSep ", " (identify_columns cols).missingKeys ++
          ". Please verify the inventory headers.") := by
      simp only [validate_column_mapping, isEmpty_false_of_ne_nil hne,
        Bool.false_eq_true, if_false]
    refine ⟨"Missing required inventory columns: " ++
      joinSep ", " (identify_columns cols).missingKeys ++
      ". Please verify the inventory headers.", ?_, ?_⟩
    · rw [update_main_check, heval]
    · show key.data <:+: _
      rw [String.data_append, String.data_append]
      exact infix_append_right _ (infix_append_left _ (joinSep_names ", " _ key hk))

theorem C9_missing_columns_fail_fast_witness :
    (∃ e, load_facts_check ["Location", "Section", "Status"] = Except.error e ∧
      namesColumn e "Space") ∧
    (∃ e, update_main_check ["foo"] = Except.error e ∧ namesColumn e "Garden") :=
  ⟨C9_missing_columns_fail_fast.1 ["Location", "Section", "Status"] "Space"
      (by decide) (by decide),
   C9_missing_columns_fail_fast.2.2 ["foo"] "Garden" (by decide)⟩

/-! ## Theory of the greedy pairing -/

theorem gPairs_nil : gPairs [] = 0 := rfl

theorem gPairs_singleton (a : ℤ) : gPairs [a] = 0 := rfl

theorem gPairs_cons_cons (a b : ℤ) (t : List ℤ) :
    gPairs (a :: b :: t) = if b = a + 1 then 1 + gPairs t else gPairs (b :: t) := rfl

theorem gPairs_cons_bounds : ∀ (t : List ℤ) (y : ℤ),
    gPairs t ≤ gPairs (y :: t) ∧ gPairs (y :: t) ≤ 1 + gPairs t
  | [], _ => by simp [gPairs_nil, gPairs_singleton]
  | a :: t', y => by
      have ih := gPairs_cons_bounds t' a
      rw [gPairs_cons_cons y a t']
      constructor
      · split
        · exact ih.2
        · exact le_refl _
      · split
        · exact Nat.add_le_add_left ih.1 1
        · exact Nat.le_add_left _ 1

theorem gPairs_le_orderedInsert : ∀ (l : List ℤ) (x : ℤ),
    gPairs l ≤ gPairs (List.orderedInsert (· ≤ ·) x l)
  | [], x => by rw [gPairs_nil]; exact Nat.zero_le _
  | [a], x => by rw [gPairs_singleton]; exact Nat.zero_le _
  | a :: b :: t', x => by
      by_cases hxa : x ≤ a
      · rw [show List.orderedInsert (· ≤ ·) x (a :: b :: t') =
            if x ≤ a then x :: a :: b :: t'
            else a :: List.orderedInsert (· ≤ ·) x (b :: t') from rfl, if_pos hxa]
        exact (gPairs_cons_bounds (a :: b :: t') x).1
      · rw [show List.orderedInsert (· ≤ ·) x (a :: b :: t') =
            if x ≤ a then x :: a :: b :: t'
            else a :: List.orderedInsert (· ≤ ·) x (b :: t') from rfl, if_neg hxa]
        by_cases hxb : x ≤ b
        · rw [show List.orderedInsert (· ≤ ·) x (b :: t') =
              if x ≤ b then x :: b :: t'
              else b :: List.orderedInsert (· ≤ ·) x t' from rfl, if_pos hxb]
          rw [gPairs_cons_cons a b t', gPairs_cons_cons a x (b :: t')]
          by_cases hba : b = a + 1
          · have hx : x = a + 1 := by
              have := not_le.mp hxa
              omega
            rw [if_pos hba, if_pos hx]
            exact Nat.add_le_add_left (gPairs_cons_bounds t' b).1 1
          · rw [if_neg hba]
            by_cases hxa1 : x = a + 1
            · rw [if_pos hxa1]
              exact Nat.le_add_left _ 1
            · rw [if_neg hxa1]
              exact (gPairs_cons_bounds (b :: t') x).1
        · rw [show List.orderedInsert (· ≤ ·) x (b :: t') =
              if x ≤ b then x :: b :: t'
              else b :: List.orderedInsert (· ≤ ·) x t' from rfl, if_neg hxb]
          rw [gPairs_cons_cons a b t',
            gPairs_cons_cons a b (List.orderedInsert (· ≤ ·) x t')]
          by_cases hba : b = a + 1
          · rw [if_pos hba, if_pos hba]
            exact Nat.add_le_add_left (gPairs_le_orderedInsert t' x) 1
          · rw [if_neg hba, if_neg hba]
            have hrec := gPairs_le_orderedInsert (b :: t') x
            rw [show List.orderedInsert (· ≤ ·) x (b :: t') =
              if x ≤ b then x :: b :: t'
              else b :: List.orderedInsert (· ≤ ·) x t' from rfl, if_neg hxb] at hrec
            exact hrec

theorem gPairs_le_half_length : ∀ l : List ℤ, gPairs l ≤ l.length / 2
  | [] => by rw [gPairs_nil]; exact Nat.zero_le _
  | [a] => by rw [gPairs_singleton]; exact Nat.zero_le _
  | a :: b :: t => by
      rw [gPairs_cons_cons]
      split
      · have := gPairs_le_half_length t
        simp only [List.length_cons]
        omega
      · have := gPairs_le_half_length (b :: t)
        simp only [List.length_cons] at this ⊢
        omega

/-- Claim C5: the concrete behaviour of `count_adjacent_pairs`: the four
reference values, dedup/order insensitivity on a sample, and left-greedy
pairing on `[1,2,3]` (1 and 2 are consumed, 3 is left unpaired). -/
theorem C5_count_adjacent_pairs_examples :
    count_adjacent_pairs [1, 2, 3] = 1 ∧
    count_adjacent_pairs [1, 2, 3, 4] = 2 ∧
    count_adjacent_pairs [1, 3, 5] = 0 ∧
    count_adjacent_pairs [] = 0 ∧
    count_adjacent_pairs [2, 1, 3, 3] = 1 ∧
    ((1 : ℤ) ∈ (cap_run [1, 2, 3]).1 ∧ (2 : ℤ) ∈ (cap_run [1, 2, 3]).1 ∧
      (3 : ℤ) ∉ (cap_run [1, 2, 3]).1) := by decide

theorem capStep_eq (all used : List ℤ) (p : ℕ) (n : ℤ) :
    capStep all (used, p) n =
      if n ∈ used then (used, p)
      else if (n + 1) ∈ all ∧ (n + 1) ∉ used then (n :: (n + 1) :: used, p + 1)
      else (used, p) := rfl

theorem cap_fold_eq : ∀ (l pre used : List ℤ) (p : ℕ),
    List.Pairwise (· < ·) (pre ++ l) → (∀ y ∈ used, y ∉ l) →
    (l.foldl (capStep (pre ++ l)) (used, p)).2 = p + gPairs l
  | [], _, _, p, _, _ => by simp [gPairs_nil]
  | [n], pre, used, p, hpw, hd => by
      have hnu : n ∉ used := fun h => hd n h (List.mem_singleton_self n)
      have hnotin : (n + 1) ∉ pre ++ [n] := by
        intro hmem
        rcases List.mem_append.mp hmem with hp | hp
        · have := (List.pairwise_append.mp hpw).2.2 (n + 1) hp n (List.mem_singleton_self n)
          omega
        · rw [List.mem_singleton] at hp
          omega
      rw [List.foldl_cons, capStep_eq, if_neg hnu,
        if_neg (fun hc => hnotin hc.1), List.foldl_nil]
      simp [gPairs_singleton]
  | n :: m :: t', pre, used, p, hpw, hd => by
      have hnu : n ∉ used := fun h => hd n h (List.mem_cons_self n _)
      have hsplit := List.pairwise_append.mp hpw
      have hnm : n < m := (List.pairwise_cons.mp hsplit.2.1).1 m (List.mem_cons_self m t')
      have hmt : ∀ y ∈ t', m < y := fun y hy =>
        (List.pairwise_cons.mp (List.pairwise_cons.mp hsplit.2.1).2).1 y hy
      have hnt : ∀ y ∈ t', n < y := fun y hy =>
        (List.pairwise_cons.mp hsplit.2.1).1 y (List.mem_cons_of_mem m hy)
      by_cases hm : m = n + 1
      · subst hm
        have hcond : (n + 1) ∈ pre ++ n :: (n + 1) :: t' ∧ (n + 1) ∉ used :=
          ⟨List.mem_append_right _ (List.mem_cons_of_mem n (List.mem_cons_self _ _)),
           fun h => hd _ h (List.mem_cons_of_mem n (List.mem_cons_self _ _))⟩
        rw [List.foldl_cons, capStep_eq, if_neg hnu, if_pos hcond,
          List.foldl_cons, capStep_eq,
          if_pos (List.mem_cons_of_mem n (List.mem_cons_self (n + 1) used))]
        have hre : pre ++ n :: (n + 1) :: t' = (pre ++ [n, n + 1]) ++ t' := by simp
        rw [hre] at hpw ⊢
        have hd' : ∀ y ∈ n :: (n + 1) :: used, y ∉ t' := by
          intro y hy
          rcases List.mem_cons.mp hy with he | hy'
          · intro hc
            rw [he] at hc
            exact absurd (hnt n hc) (lt_irrefl n)
          rcases List.mem_cons.mp hy' with he | hy''
          · intro hc
            rw [he] at hc
            exact absurd (hmt (n + 1) hc) (lt_irrefl (n + 1))
          · exact fun hc => hd y hy''
              (List.mem_cons_of_mem n (List.mem_cons_of_mem _ hc))
        rw [cap_fold_eq t' (pre ++ [n, n + 1]) (n :: (n + 1) :: used) (p + 1) hpw hd']
        rw [gPairs_cons_cons, if_pos rfl]
        omega
      · have hnotin : (n + 1) ∉ pre ++ n :: m :: t' := by
          intro hmem
          rcases List.mem_append.mp hmem with hp | hp
          · have := hsplit.2.2 (n + 1) hp n (List.mem_cons_self n _)
            omega
          · rcases List.mem_cons.mp hp with he | hp'
            · omega
            rcases List.mem_cons.mp hp' with he | hp''
            · exact hm he.symm
            · have h1 := hmt _ hp''
              omega
        rw [List.foldl_cons, capStep_eq, if_neg hnu, if_neg (fun hc => hnotin hc.1)]
        have hre : pre ++ n :: m :: t' = (pre ++ [n]) ++ m :: t' := by simp
        rw [hre] at hpw ⊢
        rw [cap_fold_eq (m :: t') (pre ++ [n]) used p hpw
          (fun y hy hc => hd y hy (List.mem_cons_of_mem n hc))]
        rw [gPairs_cons_cons, if_neg hm]

theorem sorted_dedup_eq_sort (nums : List ℤ) :
    List.insertionSort (· ≤ ·) nums.dedup = nums.toFinset.sort (· ≤ ·) := by
  apply List.eq_of_perm_of_sorted ?_ (List.sorted_insertionSort _ _)
    (Finset.sort_sorted _ _)
  apply List.perm_of_nodup_nodup_toFinset_eq
  · exact (List.perm_insertionSort _ _).nodup_iff.mpr nums.nodup_dedup
  · exact Finset.sort_nodup _ _
  · have h1 : nums.dedup.toFinset = nums.toFinset := by
      ext a
      simp [List.mem_toFinset, List.mem_dedup]
    have h2 : (nums.toFinset.sort (· ≤ ·)).toFinset = nums.toFinset := by
      ext a
      simp [List.mem_toFinset, Finset.mem_sort]
    rw [List.toFinset_eq_of_perm _ _ (List.perm_insertionSort _ _), h1, h2]

theorem count_eq_sort_gPairs (nums : List ℤ) :
    count_adjacent_pairs nums = gPairs (nums.toFinset.sort (· ≤ ·)) := by
  have hpw : List.Pairwise (· < ·)
      ([] ++ List.insertionSort (· ≤ ·) nums.dedup) := by
    rw [List.nil_append, sorted_dedup_eq_sort]
    exact Finset.sort_sorted_lt _
  have hfold := cap_fold_eq (List.insertionSort (· ≤ ·) nums.dedup) [] [] 0 hpw
    (fun y hy => absurd hy (List.not_mem_nil y))
  rw [List.nil_append] at hfold
  simp only [count_adjacent_pairs, cap_run]
  rw [hfold, Nat.zero_add, sorted_dedup_eq_sort]

theorem sort_insert_eq (A : Finset ℤ) (x : ℤ) (hx : x ∉ A) :
    (insert x A).sort (· ≤ ·) = List.orderedInsert (· ≤ ·) x (A.sort (· ≤ ·)) := by
  apply List.eq_of_perm_of_sorted ?_ (Finset.sort_sorted _ _)
    ((Finset.sort_sorted _ _).orderedInsert x _)
  exact (Finset.sort_perm_toList _ _).trans
    ((Finset.toList_insert hx).trans
      ((List.Perm.cons x (Finset.sort_perm_toList _ _).symm).trans
        (List.perm_orderedInsert _ x _).symm))

theorem gPairs_sort_mono : ∀ (k : ℕ) (A B : Finset ℤ), A ⊆ B → (B \ A).card = k →
    gPairs (A.sort (· ≤ ·)) ≤ gPairs (B.sort (· ≤ ·))
  | 0, A, B, hAB, hcard => by
      have hempty : B \ A = ∅ := Finset.card_eq_zero.mp hcard
      have hEq : A = B :=
        Finset.Subset.antisymm hAB (Finset.sdiff_eq_empty_iff_subset.mp hempty)
      rw [hEq]
  | (k + 1), A, B, hAB, hcard => by
      have hne : (B \ A).Nonempty := Finset.card_pos.mp (by omega)
      obtain ⟨x, hx⟩ := hne
      have hxB : x ∈ B := (Finset.mem_sdiff.mp hx).1
      have hxA : x ∉ A := (Finset.mem_sdiff.mp hx).2
      have step : gPairs (A.sort (· ≤ ·)) ≤ gPairs ((insert x A).sort (· ≤ ·)) := by
        rw [sort_insert_eq A x hxA]
        exact gPairs_le_orderedInsert _ x
      have hsub : insert x A ⊆ B := Finset.insert_subset hxB hAB
      have hc : (B \ insert x A).card = k := by
        rw [Finset.sdiff_insert, Finset.card_erase_of_mem hx]
        omega
      exact le_trans step (gPairs_sort_mono k (insert x A) B hsub hc)

/-- Claim C10: `count_adjacent_pairs` depends only on the set of distinct
input values, is bounded by half the number of distinct values, and is
monotone under set inclusion; hence in a companion bucket the available
pair count never exceeds the total pair count and the sold fraction lies in
[0, 1]. -/
theorem C10_pair_count_structure :
    (∀ S T : List ℤ, S.toFinset = T.toFinset →
      count_adjacent_pairs S = count_adjacent_pairs T) ∧
    (∀ S : List ℤ, count_adjacent_pairs S ≤ S.toFinset.card / 2) ∧
    (∀ S T : List ℤ, S.toFinset ⊆ T.toFinset →
      count_adjacent_pairs S ≤ count_adjacent_pairs T) ∧
    (∀ g : List MVUnit, (agg_pairs g).avail ≤ (agg_pairs g).total ∧
      0 ≤ (agg_pairs g).sold_pct ∧ (agg_pairs g).sold_pct ≤ 1) := by
  have hmono : ∀ S T : List ℤ, S.toFinset ⊆ T.toFinset →
      count_adjacent_pairs S ≤ count_adjacent_pairs T := by
    intro S T h
    rw [count_eq_sort_gPairs, count_eq_sort_gPairs]
    exact gPairs_sort_mono ((T.toFinset \ S.toFinset).card) _ _ h rfl
  have hbound : ∀ S : List ℤ, count_adjacent_pairs S ≤ S.toFinset.card / 2 := by
    intro S
    rw [count_eq_sort_gPairs]
    have h := gPairs_le_half_length (S.toFinset.sort (· ≤ ·))
    rwa [Finset.length_sort] at h
  refine ⟨?_, hbound, hmono, ?_⟩
  · intro S T h
    rw [count_eq_sort_gPairs, count_eq_sort_gPairs, h]
  · intro g
    have hsub : ((g.filter (fun u => is_available u.status)).map
        (fun u => u.crypt)).toFinset ⊆ (g.map (fun u => u.crypt)).toFinset := by
      intro a ha
      rw [List.mem_toFinset] at ha ⊢
      obtain ⟨u, hu, he⟩ := List.mem_map.mp ha
      exact he ▸ List.mem_map_of_mem _ ((List.filter_sublist _).subset hu)
    have havail : (agg_pairs g).avail ≤ (agg_pairs g).total := by
      rw [agg_pairs_avail, agg_pairs_total]
      exact hmono _ _ hsub
    refine ⟨havail, ?_, ?_⟩
    · rw [agg_pairs_sold_pct]
      split
      · have h1 : ((agg_pairs g).avail : ℚ) / ((agg_pairs g).total : ℚ) ≤ 1 :=
          div_le_one_of_le₀ (by exact_mod_cast havail) (by positivity)
        linarith
      · norm_num
    · rw [agg_pairs_sold_pct]
      split
      · have h0 : (0 : ℚ) ≤ ((agg_pairs g).avail : ℚ) / ((agg_pairs g).total : ℚ) := by
          positivity
        linarith
      · norm_num

theorem C10_pair_count_structure_witness :
    count_adjacent_pairs [1, 2] ≤ count_adjacent_pairs [0, 1, 2, 3] :=
  C10_pair_count_structure.2.2.1 [1, 2] [0, 1, 2, 3] (by decide)
